import Mathlib

/-!
# Reflectional symmetry detection (symseg): a verification model

A shallow embedding of the reflectional-symmetry detection pipeline declared in
`src/symmetry_segmentation/symmetry/reflectional_symmetry_detection.h`.  The
header in the tree carries the parameter record with its defaults and the
declarations of `mergeDuplicateReflSymmetries`, `detect`, `filter` and `merge`;
the bodies live in implementation files that are not in the tree, so those
operations are modelled from the specification's contracts (each such
definition says so in its doc comment).  Scalars are modelled as exact
rationals.
-/

namespace sym

/-- A 3-D vector with rational coordinates (models `Eigen::Vector3f`). -/
structure Vec3 where
  x : ℚ
  y : ℚ
  z : ℚ
  deriving DecidableEq, Repr

/-- Componentwise sum. -/
def Vec3.add (a b : Vec3) : Vec3 :=
  ⟨a.x + b.x, a.y + b.y, a.z + b.z⟩

/-- Componentwise difference. -/
def Vec3.sub (a b : Vec3) : Vec3 :=
  ⟨a.x - b.x, a.y - b.y, a.z - b.z⟩

/-- Componentwise negation. -/
def Vec3.neg (a : Vec3) : Vec3 :=
  ⟨-a.x, -a.y, -a.z⟩

/-- Scalar multiple. -/
def Vec3.smul (k : ℚ) (a : Vec3) : Vec3 :=
  ⟨k * a.x, k * a.y, k * a.z⟩

/-- Dot product. -/
def Vec3.dot (a b : Vec3) : ℚ :=
  a.x * b.x + a.y * b.y + a.z * b.z

/-- Squared Euclidean norm. -/
def Vec3.sqNorm (a : Vec3) : ℚ :=
  Vec3.dot a a

/-- Squared Euclidean distance (kept squared: exact rationals have no square
root, and every comparison in the model against a nonnegative bound `r` is made
as `sqDist ≤ r * r`). -/
def Vec3.sqDist (a b : Vec3) : ℚ :=
  Vec3.sqNorm (Vec3.sub a b)

/-- A reflectional symmetry: the plane `x` with `dot normal x = offset`.
Modelled from the spec: `sym::ReflectionalSymmetry` (its file
`reflectional_symmetry.hpp` is not in the tree) holds a unit `normal` and an
`offset`, the plane's signed distance from the origin. -/
structure ReflectionalSymmetry where
  normal : Vec3
  offset : ℚ
  deriving DecidableEq, Repr

/-- Modelled from the spec: reflect a point across the symmetry plane
(`reflectional_symmetry.hpp` is not in the tree).  The mirror image of `p` is
`p - 2 (dot normal p - offset) normal`. -/
def ReflectionalSymmetry.reflectPoint (s : ReflectionalSymmetry) (p : Vec3) : Vec3 :=
  Vec3.sub p (Vec3.smul (2 * (Vec3.dot s.normal p - s.offset)) s.normal)

/-- Modelled from the spec: reflect a direction (surface normal) across the
symmetry plane; directions ignore the plane's offset. -/
def ReflectionalSymmetry.reflectNormal (s : ReflectionalSymmetry) (n : Vec3) : Vec3 :=
  Vec3.sub n (Vec3.smul (2 * Vec3.dot s.normal n) s.normal)

/-- Modelled from the spec: signed distance from a point to the symmetry
plane. -/
def ReflectionalSymmetry.pointSignedDistance (s : ReflectionalSymmetry) (p : Vec3) : ℚ :=
  Vec3.dot s.normal p - s.offset

/-- The rational value standing for π in `pcl::deg2rad` (floating-point code
multiplies by a fixed rational approximation of π; the exact value never
matters to the claims, only positivity and monotonicity do). -/
def piApprox : ℚ :=
  3.14159265358979323846

/-- `pcl::deg2rad`: degrees to radians. -/
def deg2rad (x : ℚ) : ℚ :=
  x * piApprox / 180

/-- The parameter record `sym::ReflSymDetectParams`
(`reflectional_symmetry_detection.h`, lines 17-45). -/
structure ReflSymDetectParams where
  voxel_size : ℚ
  num_angle_divisions : Int
  flatness_threshold : ℚ
  refine_iterations : Int
  max_correspondence_reflected_distance : ℚ
  min_occlusion_distance : ℚ
  max_occlusion_distance : ℚ
  min_inlier_normal_angle : ℚ
  max_inlier_normal_angle : ℚ
  max_occlusion_score : ℚ
  min_cloud_inlier_score : ℚ
  min_corresp_inlier_score : ℚ
  symmetry_min_angle_diff : ℚ
  symmetry_min_distance_diff : ℚ
  max_reference_point_distance : ℚ
  deriving DecidableEq, Repr

/-- The member-initializer defaults of `sym::ReflSymDetectParams`
(`reflectional_symmetry_detection.h`, lines 20-44). -/
def defaultReflSymDetectParams : ReflSymDetectParams where
  voxel_size := 0
  num_angle_divisions := 5
  flatness_threshold := 0.005
  refine_iterations := 20
  max_correspondence_reflected_distance := 0.01
  min_occlusion_distance := 0.01
  max_occlusion_distance := 0.2
  min_inlier_normal_angle := deg2rad 10
  max_inlier_normal_angle := deg2rad 15
  max_occlusion_score := 0.01
  min_cloud_inlier_score := 0.2
  min_corresp_inlier_score := 4
  symmetry_min_angle_diff := deg2rad 7
  symmetry_min_distance_diff := 0.02
  max_reference_point_distance := 0.3

/-- Default of `mergeDuplicateReflSymmetries`'s `max_normal_angle_diff`
argument (`reflectional_symmetry_detection.h`, lines 68 and 88). -/
def mergeDefaultMaxNormalAngleDiff : ℚ :=
  deg2rad 10

/-- Default of `mergeDuplicateReflSymmetries`'s `max_distance_diff` argument
(`reflectional_symmetry_detection.h`, lines 69 and 89). -/
def mergeDefaultMaxDistanceDiff : ℚ :=
  0.01

/-- Default of `mergeDuplicateReflSymmetries`'s `max_reference_point_distance`
argument (`reflectional_symmetry_detection.h`, lines 70 and 90). -/
def mergeDefaultMaxReferencePointDistance : ℚ :=
  -1.0

/-- Modelled from the spec: the pairwise duplicate test of
`mergeDuplicateReflSymmetries` (its body is not in the tree).  Two symmetries
are duplicates iff all hold: the angle between their normals, computed
sign-ambiguously as the minimum over comparing `n1` with `n2` and with `-n2`
by the supplied angle measure `angle`, is at most `maxNormalAngleDiff`; their
offsets differ by at most `maxDistanceDiff`; and, only when
`maxReferencePointDistance` is nonnegative, their reference points are within
`maxReferencePointDistance` of each other (compared in squared form, exact
rationals having no square root).  A negative `maxReferencePointDistance`
skips the reference-point test entirely. -/
def symmetriesSimilar (angle : Vec3 → Vec3 → ℚ) (s1 s2 : ReflectionalSymmetry)
    (ref1 ref2 : Vec3)
    (maxNormalAngleDiff maxDistanceDiff maxReferencePointDistance : ℚ) : Bool :=
  if min (angle s1.normal s2.normal) (angle s1.normal (Vec3.neg s2.normal)) ≤
      maxNormalAngleDiff then
    if |s1.offset - s2.offset| ≤ maxDistanceDiff then
      if maxReferencePointDistance < 0 then
        true
      else
        decide (Vec3.sqDist ref1 ref2 ≤
          maxReferencePointDistance * maxReferencePointDistance)
    else
      false
  else
    false

/-- The session state of `sym::ReflectionalSymmetryDetection`
(`reflectional_symmetry_detection.h`, lines 178-224), with the fields the
claims speak about; `detected` models whether `detect()` has completed, so the
stage-sequencing contract can be stated. -/
structure SessionState where
  cloud : Option (List Vec3)
  detected : Bool
  symmetries_refined : List ReflectionalSymmetry
  reference_points : List Vec3
  occlusion_scores : List ℚ
  cloud_inlier_scores : List ℚ
  corresp_inlier_scores : List ℚ
  symmetry_filtered_ids : List Nat
  symmetry_merged_ids : List Nat
  deriving DecidableEq, Repr

/-- The symmetry at index `i` (out-of-range reads give a dummy plane; the
claims only look at in-range indices). -/
def symmetryAt (st : SessionState) (i : Nat) : ReflectionalSymmetry :=
  st.symmetries_refined.getD i ⟨⟨0, 0, 0⟩, 0⟩

/-- The reference point of symmetry `i`. -/
def referencePointAt (st : SessionState) (i : Nat) : Vec3 :=
  st.reference_points.getD i ⟨0, 0, 0⟩

/-- The occlusion score of symmetry `i`. -/
def occlusionScoreAt (st : SessionState) (i : Nat) : ℚ :=
  st.occlusion_scores.getD i 0

/-- The cloud inlier score of symmetry `i`. -/
def cloudInlierScoreAt (st : SessionState) (i : Nat) : ℚ :=
  st.cloud_inlier_scores.getD i 0

/-- The correspondence inlier score of symmetry `i`. -/
def correspInlierScoreAt (st : SessionState) (i : Nat) : ℚ :=
  st.corresp_inlier_scores.getD i 0

/-- Modelled from the spec: the per-symmetry filtering test of
`ReflectionalSymmetryDetection::filter` (its body is not in the tree).  A
refined symmetry survives iff its occlusion score is at most
`max_occlusion_score`, its cloud inlier score at least
`min_cloud_inlier_score` and its correspondence inlier score at least
`min_corresp_inlier_score`. -/
def filterScorePass (params : ReflSymDetectParams) (occ cloudIn correspIn : ℚ) : Bool :=
  decide (occ ≤ params.max_occlusion_score) &&
    decide (params.min_cloud_inlier_score ≤ cloudIn) &&
    decide (params.min_corresp_inlier_score ≤ correspIn)

/-- Modelled from the spec: `ReflectionalSymmetryDetection::filter` (its body
is not in the tree) walks the refined symmetries in index order and collects
the ids whose scores pass `filterScorePass`, writing only
`symmetry_filtered_ids`. -/
def runFilter (params : ReflSymDetectParams) (st : SessionState) : SessionState :=
  { st with
    symmetry_filtered_ids :=
      (List.range st.symmetries_refined.length).filter fun i =>
        filterScorePass params (occlusionScoreAt st i) (cloudInlierScoreAt st i)
          (correspInlierScoreAt st i) }

/-- The symmetric closure of a pairwise duplicate test: `i` and `j` are linked
when the test fires either way around. -/
def dupEdge (dup : Nat → Nat → Bool) (i j : Nat) : Bool :=
  dup i j || dup j i

/-- Does the new id `i` link to some member of cluster `c`? -/
def linksTo (dup : Nat → Nat → Bool) (i : Nat) (c : List Nat) : Bool :=
  c.any fun j => dupEdge dup j i

/-- Modelled from the spec: one step of the connected-components clustering of
`mergeDuplicateReflSymmetries` (its body is not in the tree; the spec asks for
a union-find style transitive grouping).  The new id `i` is joined with every
existing cluster it links to; clusters it does not link to are kept apart. -/
def clusterStep (dup : Nat → Nat → Bool) (clusters : List (List Nat)) (i : Nat) :
    List (List Nat) :=
  (clusters.filter fun c => !linksTo dup i c) ++
    [(clusters.filter fun c => linksTo dup i c).flatten ++ [i]]

/-- Modelled from the spec: the clustering of `mergeDuplicateReflSymmetries`,
inserting each id in turn into the growing component structure. -/
def buildClusters (dup : Nat → Nat → Bool) (ids : List Nat) : List (List Nat) :=
  ids.foldl (clusterStep dup) []

/-- Is candidate `i` a strictly better cluster representative than `j`: lower
occlusion score, or an equal score with a lower original index? -/
def betterRep (occ : Nat → ℚ) (i j : Nat) : Bool :=
  decide (occ i < occ j) || (decide (occ i = occ j) && decide (i < j))

/-- `repLE occ i j`: representative candidate `i` is at least as good as `j`
in the (occlusion score, original index) lexicographic order. -/
def repLE (occ : Nat → ℚ) (i j : Nat) : Prop :=
  occ i < occ j ∨ (occ i = occ j ∧ i ≤ j)

/-- Modelled from the spec: the representative `mergeDuplicateReflSymmetries`
retains from one cluster (its body is not in the tree): a linear scan keeping
the member with the lowest occlusion score, ties broken by the lowest original
index. -/
def clusterRep (occ : Nat → ℚ) : List Nat → Nat
  | [] => 0
  | i :: rest => rest.foldl (fun b j => if betterRep occ j b then j else b) i

/-- The duplicate test `ReflectionalSymmetryDetection::merge` applies to two
ids of the session, with the merging thresholds taken from the parameter
record. -/
def sessionDup (angle : Vec3 → Vec3 → ℚ) (params : ReflSymDetectParams)
    (st : SessionState) (i j : Nat) : Bool :=
  symmetriesSimilar angle (symmetryAt st i) (symmetryAt st j)
    (referencePointAt st i) (referencePointAt st j)
    params.symmetry_min_angle_diff params.symmetry_min_distance_diff
    params.max_reference_point_distance

/-- The clusters `ReflectionalSymmetryDetection::merge` builds over the
filtered ids. -/
def mergeClusters (angle : Vec3 → Vec3 → ℚ) (params : ReflSymDetectParams)
    (st : SessionState) : List (List Nat) :=
  buildClusters (sessionDup angle params st) st.symmetry_filtered_ids

/-- Modelled from the spec: `ReflectionalSymmetryDetection::merge` (its body
is not in the tree) clusters the filtered ids and keeps, in the order of
`symmetry_filtered_ids`, exactly the ids that represent their cluster, writing
only `symmetry_merged_ids`. -/
def runMerge (angle : Vec3 → Vec3 → ℚ) (params : ReflSymDetectParams)
    (st : SessionState) : SessionState :=
  { st with
    symmetry_merged_ids :=
      st.symmetry_filtered_ids.filter fun i =>
        (mergeClusters angle params st).any fun c =>
          decide (clusterRep (occlusionScoreAt st) c = i) }

/-- What `detect()` computes per symmetry once a cloud is present: the refined
symmetries, their reference points and the three score vectors.  The
generation, refinement and scoring internals are not in the tree; claims about
the stage sequencing quantify over this output. -/
structure DetectOutput where
  symmetries : List ReflectionalSymmetry
  reference_points : List Vec3
  occlusion_scores : List ℚ
  cloud_inlier_scores : List ℚ
  corresp_inlier_scores : List ℚ
  deriving DecidableEq, Repr

/-- Modelled from the spec: the control flow of
`ReflectionalSymmetryDetection::detect` (its body is not in the tree).  With
no input cloud attached it returns `false` and leaves the session untouched —
a failure distinguishable from an empty result; with a cloud attached (even an
empty one) it succeeds, marks the session detected and installs the pipeline's
per-symmetry output. -/
def detect (pipeline : List Vec3 → DetectOutput) (st : SessionState) :
    Bool × SessionState :=
  match st.cloud with
  | none => (false, st)
  | some c =>
      let out := pipeline c
      (true,
        { st with
          detected := true
          symmetries_refined := out.symmetries
          reference_points := out.reference_points
          occlusion_scores := out.occlusion_scores
          cloud_inlier_scores := out.cloud_inlier_scores
          corresp_inlier_scores := out.corresp_inlier_scores })

/-- Modelled from the spec: `filter()` called before `detect()` has completed
is a precondition error, not a silent no-op. -/
def filterStage (params : ReflSymDetectParams) (st : SessionState) :
    Except String SessionState :=
  if st.detected then Except.ok (runFilter params st)
  else Except.error "precondition: filter called before detect"

/-- Modelled from the spec: `merge()` called before `detect()` has completed
is a precondition error, not a silent no-op. -/
def mergeStage (angle : Vec3 → Vec3 → ℚ) (params : ReflSymDetectParams)
    (st : SessionState) : Except String SessionState :=
  if st.detected then Except.ok (runMerge angle params st)
  else Except.error "precondition: merge called before detect"

/-- Modelled from the spec: the refinement loop of
`ReflectionalSymmetryDetection::detect` (its body is not in the tree) runs a
fixed number of rounds with no convergence-based exit.  One round —
recomputing correspondences and solving the least-squares re-estimate — is
abstracted as `refineStep`, which returns `none` when too few correspondences
survive to solve the system; in that degenerate case the loop stops and the
plane from the previous round is kept. -/
def refineSymmetry (refineStep : ReflectionalSymmetry → Option ReflectionalSymmetry) :
    Nat → ReflectionalSymmetry → ReflectionalSymmetry
  | 0, s => s
  | Nat.succ n, s =>
      match refineStep s with
      | none => s
      | some s2 => refineSymmetry refineStep n s2

/-- The invariant of the incremental clustering: over the already-inserted ids
`done`, the accumulated `clusters` are nonempty, cover exactly the inserted
ids, are pairwise disjoint, and hold any linked pair together. -/
structure ClustersOk (dup : Nat → Nat → Bool) (done : List Nat)
    (clusters : List (List Nat)) : Prop where
  nonempty : ∀ c ∈ clusters, c ≠ []
  mem_done : ∀ c ∈ clusters, ∀ x ∈ c, x ∈ done
  covers : ∀ x ∈ done, ∃ c ∈ clusters, x ∈ c
  edge_same : ∀ x ∈ done, ∀ y ∈ done, dupEdge dup x y = true →
    ∃ c ∈ clusters, x ∈ c ∧ y ∈ c
  disjoint : clusters.Pairwise List.Disjoint

/-- A concrete angle measure for evaluating the model on concrete inputs: the
squared chord distance between the two direction vectors (monotone in the true
angle on unit vectors, which is all a concrete check needs). -/
def chordAngle (a b : Vec3) : ℚ :=
  Vec3.sqDist a b

/-- Merging thresholds for the concrete checks: duplicate planes must have
near-identical orientation and offsets within `0.01`; the reference-point test
is disabled. -/
def checkParams : ReflSymDetectParams :=
  { defaultReflSymDetectParams with
    symmetry_min_angle_diff := 1
    symmetry_min_distance_diff := 0.01
    max_reference_point_distance := -1 }

/-- A concrete detected session with three parallel planes at offsets `0`,
`0.01` and `0.02`: under `checkParams` the first two and the last two are
duplicates, the outer pair is not. -/
def checkSession : SessionState :=
  { cloud := some [⟨0, 0, 0⟩]
    detected := true
    symmetries_refined := [⟨⟨1, 0, 0⟩, 0⟩, ⟨⟨1, 0, 0⟩, 0.01⟩, ⟨⟨1, 0, 0⟩, 0.02⟩]
    reference_points := [⟨0, 0, 0⟩, ⟨0, 0, 0⟩, ⟨0, 0, 0⟩]
    occlusion_scores := [0.005, 0.001, 0.003]
    cloud_inlier_scores := [0.5, 0.5, 0.5]
    corresp_inlier_scores := [5, 5, 5]
    symmetry_filtered_ids := [0, 1, 2]
    symmetry_merged_ids := [] }

/-- A concrete undetected session with a cloud attached. -/
def freshSession : SessionState :=
  { cloud := some [⟨1, 2, 3⟩]
    detected := false
    symmetries_refined := []
    reference_points := []
    occlusion_scores := []
    cloud_inlier_scores := []
    corresp_inlier_scores := []
    symmetry_filtered_ids := []
    symmetry_merged_ids := [] }

/-- A concrete session with no cloud attached. -/
def noCloudSession : SessionState :=
  { freshSession with cloud := none }

/-- A concrete pipeline output used to exercise `detect`. -/
def checkDetectOutput : DetectOutput :=
  { symmetries := [⟨⟨0, 1, 0⟩, 2⟩]
    reference_points := [⟨0, 2, 0⟩]
    occlusion_scores := [0.002]
    cloud_inlier_scores := [0.9]
    corresp_inlier_scores := [6] }

/-- A concrete `detect` pipeline: ignores the cloud and returns
`checkDetectOutput`. -/
def checkPipeline (_cloud : List Vec3) : DetectOutput :=
  checkDetectOutput

/-- A refinement round that always succeeds, shifting the plane's offset by
one. -/
def shiftStep (s : ReflectionalSymmetry) : Option ReflectionalSymmetry :=
  some ⟨s.normal, s.offset + 1⟩

/-- The plane `shiftStep` produces. -/
def shiftPlane (s : ReflectionalSymmetry) : ReflectionalSymmetry :=
  ⟨s.normal, s.offset + 1⟩

/-- A refinement round that succeeds while the offset is below `2` and then
degenerates (too few correspondences). -/
def haltingStep (s : ReflectionalSymmetry) : Option ReflectionalSymmetry :=
  if s.offset < 2 then some ⟨s.normal, s.offset + 1⟩ else none

/-- Filtering thresholds tighter than the defaults in every coordinate. -/
def strictParams : ReflSymDetectParams :=
  { defaultReflSymDetectParams with
    max_occlusion_score := 0.002
    min_cloud_inlier_score := 0.4
    min_corresp_inlier_score := 4.5 }

/-- When every round of refinement succeeds, the loop is exactly the round map
iterated. -/
theorem refineSymmetry_total (refineStep : ReflectionalSymmetry → Option ReflectionalSymmetry)
    (f : ReflectionalSymmetry → ReflectionalSymmetry)
    (h : ∀ t, refineStep t = some (f t)) :
    ∀ (n : Nat) (s : ReflectionalSymmetry), refineSymmetry refineStep n s = f^[n] s := by
  intro n
  induction n with
  | zero => intro s; rfl
  | succ n ih =>
      intro s
      rw [refineSymmetry, h s]
      exact (ih (f s)).trans (Function.iterate_succ_apply f n s).symm

/-- When refinement degenerates after `k` successful rounds, a loop budgeted
for more than `k` rounds stops there and keeps the `k`-th plane. -/
theorem refineSymmetry_halting (refineStep : ReflectionalSymmetry → Option ReflectionalSymmetry)
    (f : ReflectionalSymmetry → ReflectionalSymmetry) :
    ∀ (k n : Nat) (s : ReflectionalSymmetry),
      (∀ j, j < k → refineStep (f^[j] s) = some (f (f^[j] s))) →
      refineStep (f^[k] s) = none → k < n →
      refineSymmetry refineStep n s = f^[k] s := by
  intro k
  induction k with
  | zero =>
      intro n s _ hfail hn
      obtain ⟨m, rfl⟩ : ∃ m, n = m + 1 := ⟨n - 1, (Nat.succ_pred_eq_of_pos hn).symm⟩
      have h0 : refineStep s = none := by simpa using hfail
      rw [refineSymmetry, h0, Function.iterate_zero_apply]
  | succ j ih =>
      intro n s hsucc hfail hn
      obtain ⟨m, rfl⟩ : ∃ m, n = m + 1 :=
        ⟨n - 1, (Nat.succ_pred_eq_of_pos (Nat.lt_of_le_of_lt (Nat.zero_le _) hn)).symm⟩
      have h0 : refineStep s = some (f s) := by simpa using hsucc 0 (Nat.succ_pos j)
      rw [refineSymmetry, h0]
      rw [Function.iterate_succ_apply]
      refine ih m (f s) ?_ ?_ (Nat.lt_of_succ_lt_succ hn)
      · intro i hi
        rw [← Function.iterate_succ_apply]
        exact hsucc (i + 1) (Nat.succ_lt_succ hi)
      · rw [← Function.iterate_succ_apply]
        exact hfail

/-- Claim C6: reflecting a point twice across the same plane (unit normal)
returns the original point; with exact rational scalars the involution law
holds exactly. -/
theorem reflectPoint_involution (s : ReflectionalSymmetry) (p : Vec3)
    (h : Vec3.dot s.normal s.normal = 1) :
    s.reflectPoint (s.reflectPoint p) = p := by
  obtain ⟨⟨nx, ny, nz⟩, d⟩ := s
  obtain ⟨px, py, pz⟩ := p
  simp only [ReflectionalSymmetry.reflectPoint, Vec3.dot, Vec3.sub, Vec3.smul] at h ⊢
  rw [Vec3.mk.injEq]
  refine ⟨?_, ?_, ?_⟩
  · linear_combination (4 * (nx * px + ny * py + nz * pz - d) * nx) * h
  · linear_combination (4 * (nx * px + ny * py + nz * pz - d) * ny) * h
  · linear_combination (4 * (nx * px + ny * py + nz * pz - d) * nz) * h

/-- Claim C6, checked at a concrete plane and point. -/
theorem reflectPoint_involution_check :
    Vec3.dot ⟨1, 0, 0⟩ ⟨1, 0, 0⟩ = 1 ∧
    ReflectionalSymmetry.reflectPoint ⟨⟨1, 0, 0⟩, 5⟩
      (ReflectionalSymmetry.reflectPoint ⟨⟨1, 0, 0⟩, 5⟩ ⟨3, 4, 7⟩) = ⟨3, 4, 7⟩ :=
  ⟨by with_unfolding_all decide,
   reflectPoint_involution ⟨⟨1, 0, 0⟩, 5⟩ ⟨3, 4, 7⟩ (by with_unfolding_all decide)⟩

/-- Claim C10: the standalone `mergeDuplicateReflSymmetries` defaults are
`deg2rad 10`, `0.01` and `-1.0` — so the reference-point test is disabled by
default, making the similarity test independent of the reference points —
while the session parameter defaults are `deg2rad 7`, `0.02` and `0.3`, under
which the reference-point test is enabled; the two sets of defaults differ in
every coordinate. -/
theorem merge_defaults_differ_from_params_defaults :
    mergeDefaultMaxNormalAngleDiff = deg2rad 10 ∧
    mergeDefaultMaxDistanceDiff = 0.01 ∧
    mergeDefaultMaxReferencePointDistance = -1.0 ∧
    defaultReflSymDetectParams.symmetry_min_angle_diff = deg2rad 7 ∧
    defaultReflSymDetectParams.symmetry_min_distance_diff = 0.02 ∧
    defaultReflSymDetectParams.max_reference_point_distance = 0.3 ∧
    mergeDefaultMaxNormalAngleDiff ≠ defaultReflSymDetectParams.symmetry_min_angle_diff ∧
    mergeDefaultMaxDistanceDiff ≠ defaultReflSymDetectParams.symmetry_min_distance_diff ∧
    mergeDefaultMaxReferencePointDistance ≠
      defaultReflSymDetectParams.max_reference_point_distance ∧
    mergeDefaultMaxReferencePointDistance < 0 ∧
    0 ≤ defaultReflSymDetectParams.max_reference_point_distance ∧
    (∀ angle s1 s2 r1 r2 r1' r2' a d,
      symmetriesSimilar angle s1 s2 r1 r2 a d mergeDefaultMaxReferencePointDistance =
        symmetriesSimilar angle s1 s2 r1' r2' a d mergeDefaultMaxReferencePointDistance) := by
  have hlt : mergeDefaultMaxReferencePointDistance < 0 := by
    with_unfolding_all decide
  refine ⟨rfl, rfl, rfl, rfl, rfl, rfl,
    by with_unfolding_all decide, by with_unfolding_all decide,
    by with_unfolding_all decide, hlt, by with_unfolding_all decide,
    fun angle s1 s2 r1 r2 r1' r2' a d => ?_⟩
  simp only [symmetriesSimilar, if_pos hlt]

/-- Claim C10, the disabled reference-point test checked at a concrete pair of
sessions' data: moving a reference point far away does not change the verdict
under the standalone defaults. -/
theorem merge_defaults_differ_check :
    symmetriesSimilar chordAngle ⟨⟨1, 0, 0⟩, 0⟩ ⟨⟨1, 0, 0⟩, 0⟩ ⟨0, 0, 0⟩ ⟨0, 0, 0⟩
        mergeDefaultMaxNormalAngleDiff mergeDefaultMaxDistanceDiff
        mergeDefaultMaxReferencePointDistance =
      symmetriesSimilar chordAngle ⟨⟨1, 0, 0⟩, 0⟩ ⟨⟨1, 0, 0⟩, 0⟩ ⟨0, 0, 0⟩ ⟨100, 100, 100⟩
        mergeDefaultMaxNormalAngleDiff mergeDefaultMaxDistanceDiff
        mergeDefaultMaxReferencePointDistance :=
  (merge_defaults_differ_from_params_defaults).2.2.2.2.2.2.2.2.2.2.2
    chordAngle ⟨⟨1, 0, 0⟩, 0⟩ ⟨⟨1, 0, 0⟩, 0⟩ ⟨0, 0, 0⟩ ⟨0, 0, 0⟩ ⟨0, 0, 0⟩ ⟨100, 100, 100⟩
    mergeDefaultMaxNormalAngleDiff mergeDefaultMaxDistanceDiff

/-- Claim C1: the merger treats two filtered symmetries as duplicates iff the
sign-ambiguous normal angle (the minimum over comparing `n1` with `n2` and
with `-n2`) is within `symmetry_min_angle_diff`, the offsets differ by at most
`symmetry_min_distance_diff`, and — only when `max_reference_point_distance`
is nonnegative — the reference points are within that bound (squared
comparison); a negative bound skips the reference-point test entirely. -/
theorem merge_duplicate_iff (angle : Vec3 → Vec3 → ℚ) (params : ReflSymDetectParams)
    (st : SessionState) (i j : Nat) :
    sessionDup angle params st i j = true ↔
      ((angle (symmetryAt st i).normal (symmetryAt st j).normal ≤
          params.symmetry_min_angle_diff ∨
        angle (symmetryAt st i).normal (Vec3.neg (symmetryAt st j).normal) ≤
          params.symmetry_min_angle_diff) ∧
       |(symmetryAt st i).offset - (symmetryAt st j).offset| ≤
         params.symmetry_min_distance_diff ∧
       (0 ≤ params.max_reference_point_distance →
        Vec3.sqDist (referencePointAt st i) (referencePointAt st j) ≤
          params.max_reference_point_distance * params.max_reference_point_distance)) := by
  unfold sessionDup symmetriesSimilar
  split_ifs with h1 h2 h3
  · exact ⟨fun _ => ⟨min_le_iff.mp h1, h2, fun hm => absurd hm (not_le.mpr h3)⟩,
      fun _ => rfl⟩
  · rw [decide_eq_true_iff]
    exact ⟨fun hr => ⟨min_le_iff.mp h1, h2, fun _ => hr⟩,
      fun hr => hr.2.2 (not_lt.mp h3)⟩
  · exact iff_of_false (by simp) fun hr => h2 hr.2.1
  · exact iff_of_false (by simp) fun hr => h1 (min_le_iff.mpr hr.1)

/-- Claim C1, checked at a concrete duplicate pair: parallel planes at offsets
`0` and `0.01` with the reference-point test disabled. -/
theorem merge_duplicate_iff_check :
    sessionDup chordAngle checkParams checkSession 0 1 = true :=
  (merge_duplicate_iff chordAngle checkParams checkSession 0 1).mpr
    ⟨Or.inl (by with_unfolding_all decide), by with_unfolding_all decide,
     fun hm => absurd hm (by with_unfolding_all decide)⟩

/-- Claim C2: after `detect()`, `filter()` keeps exactly the indices whose
occlusion score is at most `max_occlusion_score`, cloud inlier score at least
`min_cloud_inlier_score` and correspondence inlier score at least
`min_corresp_inlier_score`, in the original index order, and changes no
session state besides `symmetry_filtered_ids`. -/
theorem filter_contract (params : ReflSymDetectParams) (st : SessionState)
    (h : st.detected = true) :
    filterStage params st = Except.ok (runFilter params st) ∧
    (∀ i, i ∈ (runFilter params st).symmetry_filtered_ids ↔
      (i < st.symmetries_refined.length ∧
       occlusionScoreAt st i ≤ params.max_occlusion_score ∧
       params.min_cloud_inlier_score ≤ cloudInlierScoreAt st i ∧
       params.min_corresp_inlier_score ≤ correspInlierScoreAt st i)) ∧
    List.Sublist (runFilter params st).symmetry_filtered_ids
      (List.range st.symmetries_refined.length) ∧
    (runFilter params st).cloud = st.cloud ∧
    (runFilter params st).detected = st.detected ∧
    (runFilter params st).symmetries_refined = st.symmetries_refined ∧
    (runFilter params st).reference_points = st.reference_points ∧
    (runFilter params st).occlusion_scores = st.occlusion_scores ∧
    (runFilter params st).cloud_inlier_scores = st.cloud_inlier_scores ∧
    (runFilter params st).corresp_inlier_scores = st.corresp_inlier_scores ∧
    (runFilter params st).symmetry_merged_ids = st.symmetry_merged_ids := by
  refine ⟨by simp [filterStage, h], fun i => ?_, List.filter_sublist _,
    rfl, rfl, rfl, rfl, rfl, rfl, rfl, rfl⟩
  simp [runFilter, filterScorePass, List.mem_filter, List.mem_range,
    Bool.and_eq_true, decide_eq_true_iff, and_assoc]

/-- Claim C2, checked at a concrete detected session under the header's
default thresholds: all three symmetries pass. -/
theorem filter_contract_check :
    checkSession.detected = true ∧
    filterStage defaultReflSymDetectParams checkSession =
      Except.ok (runFilter defaultReflSymDetectParams checkSession) ∧
    (runFilter defaultReflSymDetectParams checkSession).symmetry_filtered_ids = [0, 1, 2] :=
  ⟨rfl, (filter_contract defaultReflSymDetectParams checkSession rfl).1,
   by with_unfolding_all decide⟩

/-- Claim C9: tightening any of the three filtering thresholds never grows the
filtered set — the tighter run's `symmetry_filtered_ids` is a sublist of the
looser run's, so in particular no larger. -/
theorem filter_monotone (p1 p2 : ReflSymDetectParams) (st : SessionState)
    (hocc : p2.max_occlusion_score ≤ p1.max_occlusion_score)
    (hcloud : p1.min_cloud_inlier_score ≤ p2.min_cloud_inlier_score)
    (hcorr : p1.min_corresp_inlier_score ≤ p2.min_corresp_inlier_score) :
    List.Sublist (runFilter p2 st).symmetry_filtered_ids
      (runFilter p1 st).symmetry_filtered_ids ∧
    (runFilter p2 st).symmetry_filtered_ids.length ≤
      (runFilter p1 st).symmetry_filtered_ids.length := by
  have hsub : List.Sublist (runFilter p2 st).symmetry_filtered_ids
      (runFilter p1 st).symmetry_filtered_ids := by
    refine List.monotone_filter_right _ fun i hi => ?_
    simp only [filterScorePass, Bool.and_eq_true, decide_eq_true_iff] at hi ⊢
    exact ⟨⟨hi.1.1.trans hocc, hcloud.trans hi.1.2⟩, hcorr.trans hi.2⟩
  exact ⟨hsub, hsub.length_le⟩

/-- Claim C9, checked at concrete thresholds: the strictly tighter run keeps a
sublist of the default run's ids. -/
theorem filter_monotone_check :
    strictParams.max_occlusion_score ≤ defaultReflSymDetectParams.max_occlusion_score ∧
    defaultReflSymDetectParams.min_cloud_inlier_score ≤ strictParams.min_cloud_inlier_score ∧
    defaultReflSymDetectParams.min_corresp_inlier_score ≤
      strictParams.min_corresp_inlier_score ∧
    List.Sublist (runFilter strictParams checkSession).symmetry_filtered_ids
      (runFilter defaultReflSymDetectParams checkSession).symmetry_filtered_ids :=
  ⟨by with_unfolding_all decide, by with_unfolding_all decide,
   by with_unfolding_all decide,
   (filter_monotone defaultReflSymDetectParams strictParams checkSession
      (by with_unfolding_all decide) (by with_unfolding_all decide)
      (by with_unfolding_all decide)).1⟩

/-- Claim C5: the refiner runs exactly its budgeted number of rounds when
every round's least-squares step succeeds (no convergence-based early exit),
and when the step degenerates after `k` successful rounds — too few
correspondences to solve the system — the loop stops there and keeps the plane
from the previous round. -/
theorem refine_fixed_iterations
    (refineStep : ReflectionalSymmetry → Option ReflectionalSymmetry)
    (f : ReflectionalSymmetry → ReflectionalSymmetry)
    (s : ReflectionalSymmetry) (n k : Nat) :
    ((∀ t, refineStep t = some (f t)) → refineSymmetry refineStep n s = f^[n] s) ∧
    ((∀ j, j < k → refineStep (f^[j] s) = some (f (f^[j] s))) →
      refineStep (f^[k] s) = none → k < n →
      refineSymmetry refineStep n s = f^[k] s) :=
  ⟨fun h => refineSymmetry_total refineStep f h n s,
   fun hs hf hn => refineSymmetry_halting refineStep f k n s hs hf hn⟩

/-- Claim C5, checked concretely: an always-succeeding round map is iterated
exactly three times; a round map that degenerates after two rounds leaves the
second round's plane even with a budget of twenty. -/
theorem refine_fixed_iterations_check :
    refineSymmetry shiftStep 3 ⟨⟨1, 0, 0⟩, 0⟩ = shiftPlane^[3] ⟨⟨1, 0, 0⟩, 0⟩ ∧
    shiftPlane^[3] (⟨⟨1, 0, 0⟩, 0⟩ : ReflectionalSymmetry) = ⟨⟨1, 0, 0⟩, 3⟩ ∧
    refineSymmetry haltingStep 20 ⟨⟨1, 0, 0⟩, 0⟩ = shiftPlane^[2] ⟨⟨1, 0, 0⟩, 0⟩ :=
  ⟨(refine_fixed_iterations shiftStep shiftPlane ⟨⟨1, 0, 0⟩, 0⟩ 3 0).1 fun t => rfl,
   by with_unfolding_all decide,
   (refine_fixed_iterations haltingStep shiftPlane ⟨⟨1, 0, 0⟩, 0⟩ 20 2).2
     (by
       intro j hj
       match j, hj with
       | 0, _ => with_unfolding_all decide
       | 1, _ => with_unfolding_all decide)
     (by with_unfolding_all decide) (by with_unfolding_all decide)⟩

/-- Claim C7: `detect()` with no input cloud attached fails through its
boolean return and leaves the session untouched — distinguishable from a
successful run over an attached (even empty) cloud, which returns `true` and
marks the session detected — and `filter()` or `merge()` before `detect()` is
a precondition error, not a silent no-op. -/
theorem stage_preconditions (pipeline : List Vec3 → DetectOutput)
    (angle : Vec3 → Vec3 → ℚ) (params : ReflSymDetectParams) (st : SessionState) :
    (st.cloud = none → detect pipeline st = (false, st)) ∧
    (∀ c, st.cloud = some c →
      (detect pipeline st).1 = true ∧
      (detect pipeline st).2.detected = true ∧
      (detect pipeline st).2.symmetries_refined = (pipeline c).symmetries) ∧
    (st.detected = false →
      filterStage params st =
        Except.error "precondition: filter called before detect" ∧
      mergeStage angle params st =
        Except.error "precondition: merge called before detect") := by
  refine ⟨fun h => ?_, fun c hc => ?_, fun hd => ?_⟩
  · simp [detect, h]
  · simp [detect, hc]
  · simp [filterStage, mergeStage, hd]

/-- Claim C7, checked concretely: a session without a cloud fails `detect()`
unchanged; an undetected session gets a precondition error from `filter()`;
and a session with a cloud succeeds. -/
theorem stage_preconditions_check :
    noCloudSession.cloud = none ∧
    detect checkPipeline noCloudSession = (false, noCloudSession) ∧
    freshSession.detected = false ∧
    filterStage checkParams freshSession =
      Except.error "precondition: filter called before detect" ∧
    (detect checkPipeline freshSession).1 = true :=
  ⟨rfl,
   (stage_preconditions checkPipeline chordAngle checkParams noCloudSession).1 rfl,
   rfl,
   ((stage_preconditions checkPipeline chordAngle checkParams freshSession).2.2 rfl).1,
   ((stage_preconditions checkPipeline chordAngle checkParams freshSession).2.1
      [⟨1, 2, 3⟩] rfl).1⟩

/-- Claim C8: after a completed `detect()`, running `filter()` (respectively
`merge()`) a second time on the unchanged session state returns exactly the
state the first run produced — the same ids, and no other state change. -/
theorem filter_merge_idempotent (angle : Vec3 → Vec3 → ℚ)
    (params : ReflSymDetectParams) (st : SessionState) (h : st.detected = true) :
    runFilter params (runFilter params st) = runFilter params st ∧
    runMerge angle params (runMerge angle params st) = runMerge angle params st ∧
    filterStage params (runFilter params st) = Except.ok (runFilter params st) ∧
    mergeStage angle params (runMerge angle params st) =
      Except.ok (runMerge angle params st) := by
  refine ⟨rfl, rfl, ?_, ?_⟩
  · have hd : (runFilter params st).detected = true := h
    simp only [filterStage, hd, if_true]
    rfl
  · have hd : (runMerge angle params st).detected = true := h
    simp only [mergeStage, hd, if_true]
    rfl

/-- Claim C8, checked at a concrete detected session. -/
theorem filter_merge_idempotent_check :
    checkSession.detected = true ∧
    runMerge chordAngle checkParams (runMerge chordAngle checkParams checkSession) =
      runMerge chordAngle checkParams checkSession ∧
    runFilter checkParams (runFilter checkParams checkSession) =
      runFilter checkParams checkSession :=
  ⟨rfl, (filter_merge_idempotent chordAngle checkParams checkSession rfl).2.1,
   (filter_merge_idempotent chordAngle checkParams checkSession rfl).1⟩

/-- Two pairwise-disjoint clusters sharing an element are the same cluster. -/
theorem mem_unique_of_disjoint {cl : List (List Nat)}
    (hp : cl.Pairwise List.Disjoint) {c1 c2 : List Nat}
    (hc1 : c1 ∈ cl) (hc2 : c2 ∈ cl) {x : Nat} (hx1 : x ∈ c1) (hx2 : x ∈ c2) :
    c1 = c2 := by
  induction cl with
  | nil => cases hc1
  | cons d cl ih =>
      rcases List.pairwise_cons.mp hp with ⟨hd, hp2⟩
      rcases List.mem_cons.mp hc1 with h1 | h1
      · rcases List.mem_cons.mp hc2 with h2 | h2
        · rw [h1, h2]
        · exact absurd hx2 (hd c2 h2 (h1 ▸ hx1))
      · rcases List.mem_cons.mp hc2 with h2 | h2
        · exact absurd hx1 (hd c1 h1 (h2 ▸ hx2))
        · exact ih hp2 h1 h2

/-- Inserting a fresh id preserves the clustering invariant: the id is joined
with exactly the clusters it links to, which are merged into one. -/
theorem clusterStep_ok (dup : Nat → Nat → Bool) (done : List Nat)
    (cl : List (List Nat)) (i : Nat) (h : ClustersOk dup done cl)
    (hi : i ∉ done) : ClustersOk dup (done ++ [i]) (clusterStep dup cl i) := by
  unfold clusterStep
  constructor
  · -- nonempty
    intro c hc
    rcases List.mem_append.mp hc with hc | hc
    · exact h.nonempty c (List.mem_of_mem_filter hc)
    · rw [List.mem_singleton.mp hc]
      simp
  · -- mem_done
    intro c hc x hx
    rcases List.mem_append.mp hc with hc | hc
    · exact List.mem_append_left _ (h.mem_done c (List.mem_of_mem_filter hc) x hx)
    · rw [List.mem_singleton.mp hc] at hx
      rcases List.mem_append.mp hx with hx | hx
      · obtain ⟨d, hd, hxd⟩ := List.mem_flatten.mp hx
        exact List.mem_append_left _
          (h.mem_done d (List.mem_of_mem_filter hd) x hxd)
      · rw [List.mem_singleton.mp hx]
        exact List.mem_append_right _ (List.mem_singleton.mpr rfl)
  · -- covers
    intro x hx
    rcases List.mem_append.mp hx with hx | hx
    · obtain ⟨c, hc, hxc⟩ := h.covers x hx
      by_cases hl : linksTo dup i c = true
      · exact ⟨(cl.filter fun d => linksTo dup i d).flatten ++ [i],
          List.mem_append_right _ (List.mem_singleton.mpr rfl),
          List.mem_append_left _
            (List.mem_flatten.mpr ⟨c, List.mem_filter.mpr ⟨hc, hl⟩, hxc⟩)⟩
      · have hl2 : (!linksTo dup i c) = true := by
          cases hE : linksTo dup i c
          · rfl
          · exact absurd hE hl
        exact ⟨c, List.mem_append_left _ (List.mem_filter.mpr ⟨hc, hl2⟩), hxc⟩
    · rw [List.mem_singleton.mp hx]
      exact ⟨(cl.filter fun d => linksTo dup i d).flatten ++ [i],
        List.mem_append_right _ (List.mem_singleton.mpr rfl),
        List.mem_append_right _ (List.mem_singleton.mpr rfl)⟩
  · -- edge_same
    intro x hx y hy hedge
    rcases List.mem_append.mp hx with hx | hx
    · rcases List.mem_append.mp hy with hy | hy
      · obtain ⟨c, hc, hxc, hyc⟩ := h.edge_same x hx y hy hedge
        by_cases hl : linksTo dup i c = true
        · exact ⟨(cl.filter fun d => linksTo dup i d).flatten ++ [i],
            List.mem_append_right _ (List.mem_singleton.mpr rfl),
            List.mem_append_left _
              (List.mem_flatten.mpr ⟨c, List.mem_filter.mpr ⟨hc, hl⟩, hxc⟩),
            List.mem_append_left _
              (List.mem_flatten.mpr ⟨c, List.mem_filter.mpr ⟨hc, hl⟩, hyc⟩)⟩
        · have hl2 : (!linksTo dup i c) = true := by
            cases hE : linksTo dup i c
            · rfl
            · exact absurd hE hl
          exact ⟨c, List.mem_append_left _ (List.mem_filter.mpr ⟨hc, hl2⟩), hxc, hyc⟩
      · have hyi : y = i := List.mem_singleton.mp hy
        obtain ⟨c, hc, hxc⟩ := h.covers x hx
        have hl : linksTo dup i c = true := by
          refine List.any_eq_true.mpr ⟨x, hxc, ?_⟩
          rw [← hyi]
          exact hedge
        refine ⟨(cl.filter fun d => linksTo dup i d).flatten ++ [i],
          List.mem_append_right _ (List.mem_singleton.mpr rfl),
          List.mem_append_left _
            (List.mem_flatten.mpr ⟨c, List.mem_filter.mpr ⟨hc, hl⟩, hxc⟩), ?_⟩
        rw [hyi]
        exact List.mem_append_right _ (List.mem_singleton.mpr rfl)
    · have hxi : x = i := List.mem_singleton.mp hx
      rcases List.mem_append.mp hy with hy | hy
      · obtain ⟨c, hc, hyc⟩ := h.covers y hy
        have hedge2 : dupEdge dup y i = true := by
          rw [← hxi]
          unfold dupEdge at hedge ⊢
          rw [Bool.or_comm]
          exact hedge
        have hl : linksTo dup i c = true :=
          List.any_eq_true.mpr ⟨y, hyc, hedge2⟩
        refine ⟨(cl.filter fun d => linksTo dup i d).flatten ++ [i],
          List.mem_append_right _ (List.mem_singleton.mpr rfl), ?_,
          List.mem_append_left _
            (List.mem_flatten.mpr ⟨c, List.mem_filter.mpr ⟨hc, hl⟩, hyc⟩)⟩
        rw [hxi]
        exact List.mem_append_right _ (List.mem_singleton.mpr rfl)
      · have hyi : y = i := List.mem_singleton.mp hy
        refine ⟨(cl.filter fun d => linksTo dup i d).flatten ++ [i],
          List.mem_append_right _ (List.mem_singleton.mpr rfl), ?_, ?_⟩
        · rw [hxi]
          exact List.mem_append_right _ (List.mem_singleton.mpr rfl)
        · rw [hyi]
          exact List.mem_append_right _ (List.mem_singleton.mpr rfl)
  · -- disjoint
    rw [List.pairwise_append]
    refine ⟨List.Pairwise.sublist (List.filter_sublist cl) h.disjoint, by simp, ?_⟩
    intro a ha b hb
    rw [List.mem_singleton.mp hb]
    intro x hxa hxnew
    rcases List.mem_append.mp hxnew with hxf | hxi2
    · obtain ⟨d, hd, hxd⟩ := List.mem_flatten.mp hxf
      have had : a = d :=
        mem_unique_of_disjoint h.disjoint (List.mem_of_mem_filter ha)
          (List.mem_of_mem_filter hd) hxa hxd
      have ha2 : (!linksTo dup i a) = true := (List.mem_filter.mp ha).2
      have hd2 : linksTo dup i d = true := (List.mem_filter.mp hd).2
      rw [had, hd2] at ha2
      exact absurd ha2 (by simp)
    · rw [List.mem_singleton.mp hxi2] at hxa
      exact hi (h.mem_done a (List.mem_of_mem_filter ha) i hxa)

/-- The clustering invariant is preserved along the whole insertion fold. -/
theorem foldl_clusterStep_ok (dup : Nat → Nat → Bool) :
    ∀ (rest done : List Nat) (cl : List (List Nat)),
      ClustersOk dup done cl → (done ++ rest).Nodup →
      ClustersOk dup (done ++ rest) (rest.foldl (clusterStep dup) cl) := by
  intro rest
  induction rest with
  | nil => intro done cl h _; simpa using h
  | cons a rest ih =>
      intro done cl h hnd
      have hsplit : done ++ a :: rest = (done ++ [a]) ++ rest := by
        simp
      have hi : a ∉ done := by
        intro hmem
        rcases List.nodup_append.mp hnd with ⟨_, _, hdisj⟩
        exact hdisj hmem (List.mem_cons_self a rest)
      have h2 := clusterStep_ok dup done cl a h hi
      have hnd2 : ((done ++ [a]) ++ rest).Nodup := by rwa [← hsplit]
      have h3 := ih (done ++ [a]) (clusterStep dup cl a) h2 hnd2
      rw [hsplit]
      exact h3

/-- The clusters built over a duplicate-free id list satisfy the clustering
invariant. -/
theorem buildClusters_ok (dup : Nat → Nat → Bool) (ids : List Nat)
    (h : ids.Nodup) : ClustersOk dup ids (buildClusters dup ids) := by
  have h0 : ClustersOk dup [] [] :=
    ⟨by simp, by simp, by simp, by simp, List.Pairwise.nil⟩
  simpa using foldl_clusterStep_ok dup ids [] [] h0 (by simpa using h)

/-- The representative scan stays inside the candidate pool. -/
theorem foldl_betterRep_mem (occ : Nat → ℚ) :
    ∀ (rest : List Nat) (b : Nat),
      rest.foldl (fun b2 j => if betterRep occ j b2 then j else b2) b ∈ b :: rest := by
  intro rest
  induction rest with
  | nil => intro b; simp
  | cons j rest ih =>
      intro b
      simp only [List.foldl_cons]
      by_cases hb : betterRep occ j b = true
      · rw [if_pos hb]
        have h := ih j
        simp only [List.mem_cons] at h ⊢
        tauto
      · rw [if_neg hb]
        have h := ih b
        simp only [List.mem_cons] at h ⊢
        tauto

/-- `repLE` is reflexive. -/
theorem repLE_refl (occ : Nat → ℚ) (i : Nat) : repLE occ i i :=
  Or.inr ⟨rfl, Nat.le_refl i⟩

/-- `repLE` is transitive. -/
theorem repLE_trans (occ : Nat → ℚ) {i j k : Nat}
    (h1 : repLE occ i j) (h2 : repLE occ j k) : repLE occ i k := by
  rcases h1 with h1 | ⟨he1, hl1⟩
  · rcases h2 with h2 | ⟨he2, _⟩
    · exact Or.inl (h1.trans h2)
    · exact Or.inl (he2 ▸ h1)
  · rcases h2 with h2 | ⟨he2, hl2⟩
    · exact Or.inl (he1 ▸ h2)
    · exact Or.inr ⟨he1.trans he2, hl1.trans hl2⟩

/-- A winning comparison means the challenger is lexicographically better. -/
theorem repLE_of_betterRep (occ : Nat → ℚ) {i j : Nat}
    (h : betterRep occ i j = true) : repLE occ i j := by
  simp only [betterRep, Bool.or_eq_true, Bool.and_eq_true, decide_eq_true_iff] at h
  rcases h with h | ⟨he, hl⟩
  · exact Or.inl h
  · exact Or.inr ⟨he, Nat.le_of_lt hl⟩

/-- A losing comparison means the incumbent is lexicographically at least as
good. -/
theorem repLE_of_not_betterRep (occ : Nat → ℚ) {i j : Nat}
    (h : betterRep occ i j = false) : repLE occ j i := by
  simp only [betterRep, Bool.or_eq_false_iff, Bool.and_eq_false_iff,
    decide_eq_false_iff_not] at h
  rcases lt_trichotomy (occ j) (occ i) with hlt | heq | hgt
  · exact Or.inl hlt
  · rcases h.2 with h2 | h2
    · exact absurd heq.symm h2
    · exact Or.inr ⟨heq, Nat.le_of_not_lt h2⟩
  · exact absurd hgt h.1

/-- The representative scan returns a lexicographic minimum over the incumbent
and the pool. -/
theorem foldl_betterRep_min (occ : Nat → ℚ) :
    ∀ (rest : List Nat) (b : Nat),
      repLE occ (rest.foldl (fun b2 j => if betterRep occ j b2 then j else b2) b) b ∧
      ∀ j ∈ rest,
        repLE occ (rest.foldl (fun b2 j => if betterRep occ j b2 then j else b2) b) j := by
  intro rest
  induction rest with
  | nil => intro b; exact ⟨repLE_refl occ b, by simp⟩
  | cons j rest ih =>
      intro b
      simp only [List.foldl_cons]
      by_cases hb : betterRep occ j b = true
      · rw [if_pos hb]
        rcases ih j with ⟨h1, h2⟩
        refine ⟨repLE_trans occ h1 (repLE_of_betterRep occ hb), fun k hk => ?_⟩
        rcases List.mem_cons.mp hk with rfl | hk
        · exact h1
        · exact h2 k hk
      · rw [if_neg hb]
        have hb2 : betterRep occ j b = false := by
          revert hb
          cases betterRep occ j b <;> simp
        rcases ih b with ⟨h1, h2⟩
        refine ⟨h1, fun k hk => ?_⟩
        rcases List.mem_cons.mp hk with rfl | hk
        · exact repLE_trans occ h1 (repLE_of_not_betterRep occ hb2)
        · exact h2 k hk

/-- The representative of a nonempty cluster is one of its members. -/
theorem clusterRep_mem (occ : Nat → ℚ) (c : List Nat) (hc : c ≠ []) :
    clusterRep occ c ∈ c := by
  match c with
  | [] => exact absurd rfl hc
  | i :: rest => exact foldl_betterRep_mem occ rest i

/-- The representative of a nonempty cluster is a lexicographic minimum for
(occlusion score, original index). -/
theorem clusterRep_min (occ : Nat → ℚ) (c : List Nat) (hc : c ≠ []) :
    ∀ j ∈ c, repLE occ (clusterRep occ c) j := by
  match c with
  | [] => exact absurd rfl hc
  | i :: rest =>
      intro j hj
      rcases List.mem_cons.mp hj with rfl | hj
      · exact (foldl_betterRep_min occ rest j).1
      · exact (foldl_betterRep_min occ rest i).2 j hj

/-- Filtering a duplicate-free list by a test that singles out one of its
members yields exactly that member. -/
theorem filter_eq_singleton_of_nodup :
    ∀ (l : List Nat), l.Nodup → ∀ (r : Nat), r ∈ l → ∀ (f : Nat → Bool),
      (∀ i ∈ l, f i = true ↔ i = r) → l.filter f = [r] := by
  intro l
  induction l with
  | nil => intro _ r hr; cases hr
  | cons a l ih =>
      intro hnd r hr f hf
      rcases List.nodup_cons.mp hnd with ⟨ha, hnd2⟩
      rcases List.mem_cons.mp hr with rfl | hr
      · have hfa : f r = true := (hf r (List.mem_cons_self r l)).mpr rfl
        rw [List.filter_cons_of_pos hfa]
        have hnil : l.filter f = [] := by
          rw [List.filter_eq_nil_iff]
          intro i hi hfi
          exact ha ((hf i (List.mem_cons_of_mem r hi)).mp hfi ▸ hi)
        rw [hnil]
      · have hfa : f a = false := by
          by_cases hfa : f a = true
          · have : a = r := (hf a (List.mem_cons_self a l)).mp hfa
            exact absurd (this ▸ hr) ha
          · revert hfa
            cases f a <;> simp
        rw [List.filter_cons_of_neg (by simp [hfa])]
        exact ih hnd2 r hr f fun i hi => hf i (List.mem_cons_of_mem a hi)

/-- Claim C4: the merger's clustering closes the pairwise duplicate relation
transitively — whenever A is a duplicate of B and B of C among the filtered
ids, all three land in one cluster, even if A and C are not directly within
the thresholds of each other. -/
theorem merge_transitive_clustering (angle : Vec3 → Vec3 → ℚ)
    (params : ReflSymDetectParams) (st : SessionState) (a b c : Nat)
    (hnd : st.symmetry_filtered_ids.Nodup)
    (ha : a ∈ st.symmetry_filtered_ids) (hb : b ∈ st.symmetry_filtered_ids)
    (hc : c ∈ st.symmetry_filtered_ids)
    (hab : sessionDup angle params st a b = true)
    (hbc : sessionDup angle params st b c = true) :
    ∃ g ∈ mergeClusters angle params st, a ∈ g ∧ b ∈ g ∧ c ∈ g := by
  have hok := buildClusters_ok (sessionDup angle params st)
    st.symmetry_filtered_ids hnd
  have hedgeab : dupEdge (sessionDup angle params st) a b = true := by
    simp [dupEdge, hab]
  have hedgebc : dupEdge (sessionDup angle params st) b c = true := by
    simp [dupEdge, hbc]
  obtain ⟨g1, hg1, hag1, hbg1⟩ := hok.edge_same a ha b hb hedgeab
  obtain ⟨g2, hg2, hbg2, hcg2⟩ := hok.edge_same b hb c hc hedgebc
  have hgg : g1 = g2 :=
    mem_unique_of_disjoint hok.disjoint hg1 hg2 hbg1 hbg2
  exact ⟨g1, hg1, hag1, hbg1, hgg ▸ hcg2⟩

/-- Claim C4, checked concretely: three parallel planes at offsets `0`,
`0.01`, `0.02` with a `0.01` offset threshold — the outer pair is not directly
a duplicate, yet all three share one cluster. -/
theorem merge_transitive_clustering_check :
    checkSession.symmetry_filtered_ids.Nodup ∧
    sessionDup chordAngle checkParams checkSession 0 1 = true ∧
    sessionDup chordAngle checkParams checkSession 1 2 = true ∧
    sessionDup chordAngle checkParams checkSession 0 2 = false ∧
    ∃ g ∈ mergeClusters chordAngle checkParams checkSession,
      0 ∈ g ∧ 1 ∈ g ∧ 2 ∈ g :=
  ⟨by with_unfolding_all decide, by with_unfolding_all decide,
   by with_unfolding_all decide, by with_unfolding_all decide,
   merge_transitive_clustering chordAngle checkParams checkSession 0 1 2
     (by with_unfolding_all decide) (by with_unfolding_all decide)
     (by with_unfolding_all decide) (by with_unfolding_all decide)
     (by with_unfolding_all decide) (by with_unfolding_all decide)⟩

/-- Claim C3: from each cluster the merger retains exactly one id — the member
with the lowest occlusion score, ties broken by the lowest original index —
and `symmetry_merged_ids` lists the representatives in the filtered ids'
original order (a sublist of `symmetry_filtered_ids`). -/
theorem merge_representative_rule (angle : Vec3 → Vec3 → ℚ)
    (params : ReflSymDetectParams) (st : SessionState)
    (hnd : st.symmetry_filtered_ids.Nodup) :
    List.Sublist (runMerge angle params st).symmetry_merged_ids
      st.symmetry_filtered_ids ∧
    ∀ c ∈ mergeClusters angle params st,
      clusterRep (occlusionScoreAt st) c ∈ c ∧
      (∀ j ∈ c,
        occlusionScoreAt st (clusterRep (occlusionScoreAt st) c) <
          occlusionScoreAt st j ∨
        (occlusionScoreAt st (clusterRep (occlusionScoreAt st) c) =
          occlusionScoreAt st j ∧
         clusterRep (occlusionScoreAt st) c ≤ j)) ∧
      (runMerge angle params st).symmetry_merged_ids.filter
          (fun i => decide (i ∈ c)) =
        [clusterRep (occlusionScoreAt st) c] := by
  have hok := buildClusters_ok (sessionDup angle params st)
    st.symmetry_filtered_ids hnd
  refine ⟨List.filter_sublist _, fun c hc => ?_⟩
  have hcne : c ≠ [] := hok.nonempty c hc
  have hrmem : clusterRep (occlusionScoreAt st) c ∈ c :=
    clusterRep_mem (occlusionScoreAt st) c hcne
  refine ⟨hrmem, fun j hj => clusterRep_min (occlusionScoreAt st) c hcne j hj, ?_⟩
  have hmerged : (runMerge angle params st).symmetry_merged_ids =
      st.symmetry_filtered_ids.filter fun i =>
        (mergeClusters angle params st).any fun d =>
          decide (clusterRep (occlusionScoreAt st) d = i) := rfl
  rw [hmerged, List.filter_filter]
  refine filter_eq_singleton_of_nodup st.symmetry_filtered_ids hnd
    (clusterRep (occlusionScoreAt st) c) (hok.mem_done c hc _ hrmem) _
    fun i hi => ?_
  constructor
  · intro hit
    simp only [Bool.and_eq_true] at hit
    obtain ⟨hic, hrep⟩ := hit
    have hic2 : i ∈ c := of_decide_eq_true hic
    obtain ⟨d, hd, hdi⟩ := List.any_eq_true.mp hrep
    have hdi2 : clusterRep (occlusionScoreAt st) d = i := of_decide_eq_true hdi
    have hdne : d ≠ [] := hok.nonempty d hd
    have hid : i ∈ d := hdi2 ▸ clusterRep_mem (occlusionScoreAt st) d hdne
    have hcd : c = d := mem_unique_of_disjoint hok.disjoint hc hd hic2 hid
    rw [hcd]
    exact hdi2.symm
  · intro hir
    rw [hir]
    simp only [Bool.and_eq_true]
    exact ⟨decide_eq_true hrmem,
      List.any_eq_true.mpr ⟨c, hc, decide_eq_true rfl⟩⟩

/-- Claim C3, checked concretely: the three planes form one cluster and the
retained id is `1`, the member with the lowest occlusion score. -/
theorem merge_representative_rule_check :
    checkSession.symmetry_filtered_ids.Nodup ∧
    List.Sublist (runMerge chordAngle checkParams checkSession).symmetry_merged_ids
      checkSession.symmetry_filtered_ids ∧
    (runMerge chordAngle checkParams checkSession).symmetry_merged_ids = [1] :=
  ⟨by with_unfolding_all decide,
   (merge_representative_rule chordAngle checkParams checkSession
      (by with_unfolding_all decide)).1,
   by with_unfolding_all decide⟩

end sym
